import Mathlib

/-!
# Verification of the gohttpsnoop capture/decode pipeline

A shallow embedding of `main.go` (the eBPF capture routine `handler`, the
C `struct event` wire record, and the Go consumer that decodes and prints
events) together with theorems checking the claims of the specification.

Conventions:
* machine words are `Nat` reduced modulo `2 ^ 64` where the source uses `u64`;
* target-process memory is a partial map from addresses to bytes
  (`Nat → Option Nat`), `none` standing for an unreadable address;
* `bpf_probe_read` zero-fills its destination when the read faults, which is
  modelled by `probeReadZ` returning zero bytes on failure (the destination
  `struct event e = {}` is zero-initialised as in the source).
-/

set_option maxRecDepth 100000

namespace GoHttpSnoop

/-! ## Machine words and little-endian byte coding -/

/-- The size of a `u64` machine word value space. -/
def WORD : Nat := 2 ^ 64

/-- Pointer arithmetic wraps at 64 bits. -/
def wrap (a : Nat) : Nat := a % WORD

/-- The C macro `OFFSET(ptr, offset) = (void*)ptr + offset * 8`. -/
def OFFSET (p n : Nat) : Nat := wrap (p + n * 8)

/-- Little-endian decoding of a byte list into a natural number
(host byte order of the x86-64 target, used by `bpf.GetHostByteOrder`). -/
def leDecode : List Nat → Nat
  | [] => 0
  | b :: bs => b % 256 + 256 * leDecode bs

/-- Little-endian encoding of a value into `w` bytes. -/
def leEncode : Nat → Nat → List Nat
  | 0, _ => []
  | w + 1, v => v % 256 :: leEncode w (v / 256)

/-! ## Target memory and `bpf_probe_read` -/

/-- Target process memory: a partial map from addresses to bytes. -/
abbrev Mem := Nat → Option Nat

/-- Collect a list of optional bytes, failing if any is missing. -/
def optTraverse : List (Option Nat) → Option (List Nat)
  | [] => some []
  | none :: _ => none
  | some b :: rest => (optTraverse rest).map (b :: ·)

/-- Read `n` consecutive bytes of target memory starting at `a`
(`none` when any byte is unmapped, as `bpf_probe_read` then fails). -/
def probeRead (m : Mem) (a n : Nat) : Option (List Nat) :=
  optTraverse ((List.range n).map fun i => (m (wrap (a + i))).map (· % 256))

/-- `bpf_probe_read` semantics seen by `handler`: on failure the destination
bytes are zero (the kernel zero-fills the buffer and `e` is zero-initialised). -/
def probeReadZ (m : Mem) (a n : Nat) : List Nat :=
  (probeRead m a n).getD (List.replicate n 0)

/-- Read one `u64` word of target memory in host byte order. -/
def readWord (m : Mem) (a : Nat) : Nat := leDecode (probeReadZ m a 8)

/-! ## The event record -/

/-- Capacity of the `char method[10]` slot of `struct event`. -/
def METHOD_CAP : Nat := 10

/-- Capacity of the `char path[128]` slot of `struct event`. -/
def PATH_CAP : Nat := 128

/-- The event record: `struct event` on the producer side, mirrored by the Go
`type event struct` on the consumer side.  Field values are byte lists of
lengths `METHOD_CAP` / `PATH_CAP` for records built by the pipeline. -/
structure event where
  MethodLen : Nat
  PathLen : Nat
  Method : List Nat
  Path : List Nat
deriving DecidableEq

/-- Zero-fill a field slot up to its capacity (the slot starts zeroed). -/
def padZeros (cap : Nat) (bs : List Nat) : List Nat :=
  bs ++ List.replicate (cap - bs.length) 0

/-! ## The capture routine `handler`

The BPF C program reads, per invocation with stack pointer `sp`:
`req` from `SP + 3*8`; the method data pointer and length from `req + 0` and
`req + 8`; the `url` pointer from `req + 16`; the path data pointer and length
from `url + 7*8` and `url + 8*8`; then copies `min(len, capacity)` bytes of
each field and stores the unclamped lengths. -/

/-- `req`, read from the 4th 64-bit word above the stack pointer. -/
def reqOf (m : Mem) (sp : Nat) : Nat := readWord m (OFFSET sp 3)

/-- The data pointer of the method string, at offset 0 from `req`. -/
def methodDataOf (m : Mem) (sp : Nat) : Nat := readWord m (OFFSET (reqOf m sp) 0)

/-- The declared length of the method string, at offset 8 from `req`. -/
def methodLenOf (m : Mem) (sp : Nat) : Nat := readWord m (OFFSET (reqOf m sp) 1)

/-- The `url` pointer, at offset 16 from `req`. -/
def urlOf (m : Mem) (sp : Nat) : Nat := readWord m (OFFSET (reqOf m sp) 2)

/-- The data pointer of the path string, at offset `7*8 = 56` from `url`. -/
def pathDataOf (m : Mem) (sp : Nat) : Nat := readWord m (OFFSET (urlOf m sp) 7)

/-- The declared length of the path string, at offset `8*8 = 64` from `url`. -/
def pathLenOf (m : Mem) (sp : Nat) : Nat := readWord m (OFFSET (urlOf m sp) 8)

/-- The capture routine: the body of `int handler(struct pt_regs *ctx)`.
It copies `min(len, cap)` bytes of each field into the zero-initialised
slots and stores the original (unclamped) lengths. -/
def handler (m : Mem) (sp : Nat) : event :=
  { MethodLen := methodLenOf m sp
    PathLen := pathLenOf m sp
    Method := padZeros METHOD_CAP
      (probeReadZ m (methodDataOf m sp) (min (methodLenOf m sp) METHOD_CAP))
    Path := padZeros PATH_CAP
      (probeReadZ m (pathDataOf m sp) (min (pathLenOf m sp) PATH_CAP)) }

/-- `handler` ends with an unconditional `events.perf_submit(ctx, &e, sizeof(e))`:
every invocation emits exactly one event, whatever reads failed. -/
def handlerEmit (m : Mem) (sp : Nat) : List event := [handler m sp]

/-! ## The wire record: C struct layout on the producer side

`struct event { u64 method_len; u64 path_len; char method[10]; char path[128]; }`
laid out by the C ABI: `u64` aligns to 8, `char[]` to 1, and the struct size is
rounded up to the struct alignment (8).  `perf_submit(ctx, &e, sizeof(e))`
emits `sizeof(struct event)` bytes. -/

/-- Round `x` up to a multiple of the alignment `a`. -/
def alignUp (x a : Nat) : Nat := (x + a - 1) / a * a

/-- Byte offset of `method_len` in `struct event`. -/
def methodLenOff : Nat := 0

/-- Byte offset of `path_len` in `struct event`. -/
def pathLenOff : Nat := alignUp (methodLenOff + 8) 8

/-- Byte offset of `method` in `struct event`. -/
def methodOff : Nat := alignUp (pathLenOff + 8) 1

/-- Byte offset of `path` in `struct event`. -/
def pathOff : Nat := alignUp (methodOff + METHOD_CAP) 1

/-- `sizeof(struct event)`: the end of `path` rounded up to the 8-byte
alignment of the struct. -/
def eventSizeC : Nat := alignUp (pathOff + PATH_CAP) 8

/-- The bytes `perf_submit` emits for an event: the two `u64` lengths in host
byte order, the two fixed-capacity slots, then the tail padding of the struct. -/
def cSerialize (e : event) : List Nat :=
  leEncode 8 e.MethodLen ++ leEncode 8 e.PathLen ++
  (padZeros METHOD_CAP e.Method).take METHOD_CAP ++
  (padZeros PATH_CAP e.Path).take PATH_CAP ++
  List.replicate (eventSizeC - (pathOff + PATH_CAP)) 0

/-! ## The consumer: `binary.Read` and string extraction -/

/-- `binary.Size` of the Go `event` struct: the `encoding/binary` package
packs `uint64, uint64, [10]byte, [128]byte` with no padding. -/
def goEventSize : Nat := 8 + 8 + METHOD_CAP + PATH_CAP

/-- `binary.Read(bytes.NewBuffer(data), bpf.GetHostByteOrder(), &e)`: reads
exactly `goEventSize` bytes from the front of `data` (host byte order for the
`uint64` fields) and fails with an EOF error when `data` is shorter. -/
def binRead (data : List Nat) : Option event :=
  if goEventSize ≤ data.length then
    some { MethodLen := leDecode (data.take 8)
           PathLen := leDecode ((data.drop 8).take 8)
           Method := (data.drop 16).take METHOD_CAP
           Path := (data.drop 26).take PATH_CAP }
  else none

/-- Go slice expression `arr[:L]` on an array value: the first `L` elements
when `L ≤ len(arr)`, and a bounds panic (modelled as `none`) otherwise. -/
def sliceStr (arr : List Nat) (L : Nat) : Option (List Nat) :=
  if L ≤ arr.length then some (arr.take L) else none

/-- `string(e.Method[:e.MethodLen]), string(e.Path[:e.PathLen])`: the consumer
slices each field by its stored (unclamped) length; `none` models the
slice-bounds panic when a stored length exceeds the capacity of the field. -/
def decodeStrings (e : event) : Option (List Nat × List Nat) := do
  let mth ← sliceStr e.Method e.MethodLen
  let pth ← sliceStr e.Path e.PathLen
  pure (mth, pth)

/-! ## Presentation -/

/-- Character codes of a string literal. -/
def ascii (s : String) : List Nat := s.data.map Char.toNat

/-- `%-10s`: left-justify in a 10-character column, space-padded. -/
def padColumn (s : List Nat) : List Nat := s ++ List.replicate (10 - s.length) 32

/-- `fmt.Printf("%-10s %s\n", mth, pth)`: padded first field, one space,
second field, newline. -/
def formatLine (mth pth : List Nat) : List Nat :=
  padColumn mth ++ [32] ++ pth ++ [10]

/-- One line of program output: either the `failed to decode packet: ...`
diagnostic or a formatted header/event line. -/
inductive OutLine where
  | diag
  | line (bs : List Nat)
deriving DecidableEq

/-- The loop of the consumer goroutine over dequeued channel entries: a
`binary.Read` error prints a diagnostic and continues with the next entry; a
slice-bounds panic kills the program (no further output); otherwise the
decoded event is printed as one formatted line. -/
def consumeLoop : List (List Nat) → List OutLine
  | [] => []
  | d :: rest =>
    match binRead d with
    | none => OutLine.diag :: consumeLoop rest
    | some e =>
      match decodeStrings e with
      | none => []
      | some (mth, pth) => OutLine.line (formatLine mth pth) :: consumeLoop rest

/-- The standard output of the program: the header line
`fmt.Printf("%-10s %s\n", "Method", "Path")` followed by the consumer
goroutine lines for the dequeued packets. -/
def programOutput (packets : List (List Nat)) : List OutLine :=
  OutLine.line (formatLine (ascii "Method") (ascii "Path")) :: consumeLoop packets

/-! ## The event channel

`channel := make(chan []byte, 100)`: a bounded FIFO between the capture side
and the consumer goroutine.  The transport is lossy under backpressure (a
full channel drops the newly produced buffer rather than growing); it never
reorders or duplicates entries. -/

/-- Capacity of the event channel (`make(chan []byte, 100)`). -/
def CHAN_CAP : Nat := 100

/-- The bounded FIFO channel state (front of `buf` is the oldest entry). -/
structure Chan where
  buf : List Nat
deriving DecidableEq

/-- Produce into the channel: enqueue at the back, or drop when full. -/
def chanPush (c : Chan) (x : Nat) : Chan :=
  if c.buf.length < CHAN_CAP then ⟨c.buf ++ [x]⟩ else c

/-- Consume from the channel: dequeue the oldest entry, if any. -/
def chanPop : Chan → Option (Nat × Chan)
  | ⟨[]⟩ => none
  | ⟨x :: xs⟩ => some (x, ⟨xs⟩)

/-- One scheduling step: either the producer emits its next buffer or the
consumer attempts a receive. -/
inductive Action where
  | produce
  | consume

/-- Run a schedule: `pending` are the buffers the capture side will emit, in
emission order; the result is the sequence the consumer observes. -/
def chanRun : List Action → List Nat → Chan → List Nat
  | [], _, _ => []
  | Action.produce :: acts, [], c => chanRun acts [] c
  | Action.produce :: acts, v :: vs, c => chanRun acts vs (chanPush c v)
  | Action.consume :: acts, vs, c =>
    match chanPop c with
    | none => chanRun acts vs c
    | some (x, c2) => x :: chanRun acts vs c2

/-! ## Setup and shutdown (`func main`) -/

/-- Outcome of the process: `log.Fatalf` (exit code 1 with a diagnostic) or a
normal return from `main` (exit code 0). -/
inductive ExitStatus where
  | fatal (msg : String)
  | ok
deriving DecidableEq

/-- The process exit code of an outcome (`log.Fatalf` calls `os.Exit(1)`). -/
def exitCode : ExitStatus → Nat
  | ExitStatus.fatal _ => 1
  | ExitStatus.ok => 0

/-- The control flow of `func main`, abstracted over the results of the three
setup calls (`LoadKprobe`, `AttachUprobe`, `InitPerfMap`).  The returned flag
records whether capture was started (`perfMap.Start()` reached).  When all
setup succeeds, `main` blocks on the signal channel and, once an
interrupt/kill signal arrives, stops the perf map and returns (exit code 0). -/
def mainRun (load attach initMap : Except String Unit) : ExitStatus × Bool :=
  match load with
  | Except.error e => (ExitStatus.fatal ("Failed to load kprobe: " ++ e), false)
  | Except.ok _ =>
    match attach with
    | Except.error e => (ExitStatus.fatal ("could not attach uprobe to symbol: " ++ e), false)
    | Except.ok _ =>
      match initMap with
      | Except.error e => (ExitStatus.fatal ("Failed to init perf map: " ++ e), false)
      | Except.ok _ => (ExitStatus.ok, true)

/-! ## Well-formed event records -/

/-- Events as built by the pipeline: `u64` lengths and exactly-full slots. -/
def WFevent (e : event) : Prop :=
  e.MethodLen < WORD ∧ e.PathLen < WORD ∧
  e.Method.length = METHOD_CAP ∧ e.Path.length = PATH_CAP

instance : DecidablePred WFevent := fun e => by
  unfold WFevent; infer_instance

/-! ## Basic lemmas about the embedding -/

theorem leDecode_lt (bs : List Nat) : leDecode bs < 256 ^ bs.length := by
  induction bs with
  | nil => simp [leDecode]
  | cons b bs ih =>
    simp only [leDecode, List.length_cons, pow_succ]
    have hb : b % 256 < 256 := Nat.mod_lt _ (by norm_num)
    omega

theorem leEncode_length (w v : Nat) : (leEncode w v).length = w := by
  induction w generalizing v with
  | zero => rfl
  | succ w ih => simp [leEncode, ih]

theorem leDecode_leEncode (w v : Nat) : leDecode (leEncode w v) = v % 256 ^ w := by
  induction w generalizing v with
  | zero => simp [leEncode, leDecode, Nat.mod_one]
  | succ w ih =>
    simp only [leEncode, leDecode, ih, pow_succ']
    rw [Nat.mod_mul]
    omega

theorem leDecode_leEncode_eight {v : Nat} (h : v < WORD) :
    leDecode (leEncode 8 v) = v := by
  have h256 : (256 : Nat) ^ 8 = WORD := by norm_num [WORD]
  rw [leDecode_leEncode, h256, Nat.mod_eq_of_lt h]

theorem optTraverse_length {l : List (Option Nat)} {bs : List Nat}
    (h : optTraverse l = some bs) : bs.length = l.length := by
  induction l generalizing bs with
  | nil =>
    simp only [optTraverse, Option.some.injEq] at h
    subst h; rfl
  | cons o rest ih =>
    rcases o with _ | b
    · simp [optTraverse] at h
    · rcases hrest : optTraverse rest with _ | bs'
      · simp [optTraverse, hrest] at h
      · simp only [optTraverse, hrest, Option.map_some', Option.some.injEq] at h
        subst h
        simp [ih hrest]

theorem probeRead_length {m : Mem} {a n : Nat} {bs : List Nat}
    (h : probeRead m a n = some bs) : bs.length = n := by
  have := optTraverse_length h
  simpa using this

theorem probeReadZ_length (m : Mem) (a n : Nat) : (probeReadZ m a n).length = n := by
  unfold probeReadZ
  rcases h : probeRead m a n with _ | bs
  · simp
  · simpa using probeRead_length h

theorem probeReadZ_of_some {m : Mem} {a n : Nat} {bs : List Nat}
    (h : probeRead m a n = some bs) : probeReadZ m a n = bs := by
  simp [probeReadZ, h]

theorem probeReadZ_of_none {m : Mem} {a n : Nat}
    (h : probeRead m a n = none) : probeReadZ m a n = List.replicate n 0 := by
  simp [probeReadZ, h]

theorem readWord_lt (m : Mem) (a : Nat) : readWord m a < WORD := by
  have h := leDecode_lt (probeReadZ m a 8)
  rw [probeReadZ_length] at h
  have h8 : (256 : Nat) ^ 8 = WORD := by norm_num [WORD]
  rw [h8] at h
  exact h

theorem padZeros_length {cap : Nat} {bs : List Nat} (h : bs.length ≤ cap) :
    (padZeros cap bs).length = cap := by
  simp [padZeros]
  omega

theorem padZeros_eq_of_length {cap : Nat} {bs : List Nat} (h : bs.length = cap) :
    padZeros cap bs = bs := by
  simp [padZeros, h]

theorem handler_wf (m : Mem) (sp : Nat) : WFevent (handler m sp) := by
  refine ⟨readWord_lt m _, readWord_lt m _, ?_, ?_⟩
  · exact padZeros_length (by rw [probeReadZ_length]; exact min_le_right _ _)
  · exact padZeros_length (by rw [probeReadZ_length]; exact min_le_right _ _)

/-- The producer record layout and the consumer `binary.Read` agree on every
well-formed event: decoding the emitted bytes recovers the exact record. -/
theorem binRead_cSerialize {e : event} (he : WFevent e) :
    binRead (cSerialize e) = some e := by
  obtain ⟨h1, h2, h3, h4⟩ := he
  cases e with
  | mk a b M P =>
    simp only [event.MethodLen, event.PathLen, event.Method, event.Path] at h1 h2 h3 h4
    have hm : padZeros METHOD_CAP M = M := padZeros_eq_of_length h3
    have hp : padZeros PATH_CAP P = P := padZeros_eq_of_length h4
    have htm : M.take METHOD_CAP = M := by rw [← h3]; exact List.take_length M
    have htp : P.take PATH_CAP = P := by rw [← h4]; exact List.take_length P
    have hpad6 : eventSizeC - (pathOff + PATH_CAP) = 6 := by decide
    have hser : cSerialize ⟨a, b, M, P⟩ =
        leEncode 8 a ++ (leEncode 8 b ++ (M ++ (P ++ List.replicate 6 0))) := by
      simp only [cSerialize]
      rw [hm, hp, htm, htp, hpad6]
      simp [List.append_assoc]
    have hlen : (cSerialize ⟨a, b, M, P⟩).length = 160 := by
      rw [hser]
      simp [leEncode_length, h3, h4, METHOD_CAP, PATH_CAP]
    have e8 : (leEncode 8 a).length = 8 := leEncode_length 8 a
    have e8b : (leEncode 8 b).length = 8 := leEncode_length 8 b
    have d0 : (cSerialize ⟨a, b, M, P⟩).take 8 = leEncode 8 a := by
      rw [hser]; exact List.take_left' e8
    have d8 : (cSerialize ⟨a, b, M, P⟩).drop 8 =
        leEncode 8 b ++ (M ++ (P ++ List.replicate 6 0)) := by
      rw [hser]; exact List.drop_left' e8
    have d8t : ((cSerialize ⟨a, b, M, P⟩).drop 8).take 8 = leEncode 8 b := by
      rw [d8]; exact List.take_left' e8b
    have d16 : (cSerialize ⟨a, b, M, P⟩).drop 16 = M ++ (P ++ List.replicate 6 0) := by
      have : (8 : Nat) + 8 = 16 := rfl
      rw [← this, ← List.drop_drop, d8]
      exact List.drop_left' e8b
    have d16t : ((cSerialize ⟨a, b, M, P⟩).drop 16).take METHOD_CAP = M := by
      rw [d16]; exact List.take_left' h3
    have d26 : (cSerialize ⟨a, b, M, P⟩).drop 26 = P ++ List.replicate 6 0 := by
      have : (16 : Nat) + 10 = 26 := rfl
      rw [← this, ← List.drop_drop, d16]
      exact List.drop_left' h3
    have d26t : ((cSerialize ⟨a, b, M, P⟩).drop 26).take PATH_CAP = P := by
      rw [d26]; exact List.take_left' h4
    have h256 : (256 : Nat) ^ 8 = WORD := by norm_num [WORD]
    unfold binRead
    rw [if_pos (by rw [hlen]; norm_num [goEventSize, METHOD_CAP, PATH_CAP])]
    rw [d0, d8t, d16t, d26t, leDecode_leEncode, leDecode_leEncode, h256,
      Nat.mod_eq_of_lt h1, Nat.mod_eq_of_lt h2]

/-! ## Concrete targets for evaluating the pipeline -/

/-- A finite target memory given by an address/byte association list. -/
def mkMem (entries : List (Nat × Nat)) : Mem := fun a => entries.lookup a

/-- Lay a byte string out at consecutive addresses starting at `a`. -/
def putBytesAt (a : Nat) (bs : List Nat) : List (Nat × Nat) :=
  bs.enum.map fun p => (a + p.1, p.2)

/-- A target memory as in the demonstration server: with `sp = 0`, the request
pointer `1000` sits at stack offset 24; the method is the 3-byte `GET`, the
path the 5-byte `/ping`. -/
def wMem3 : Mem := mkMem (
  putBytesAt 24 (leEncode 8 1000) ++ putBytesAt 1000 (leEncode 8 2000) ++
  putBytesAt 1008 (leEncode 8 3) ++ putBytesAt 1016 (leEncode 8 3000) ++
  putBytesAt 3056 (leEncode 8 4000) ++ putBytesAt 3064 (leEncode 8 5) ++
  putBytesAt 2000 (ascii "GET") ++ putBytesAt 4000 (ascii "/ping"))

/-- A target memory with over-long fields: a 12-byte method and a 200-byte
path, exceeding the capacities 10 and 128. -/
def wMem2 : Mem := mkMem (
  putBytesAt 24 (leEncode 8 1000) ++ putBytesAt 1000 (leEncode 8 2000) ++
  putBytesAt 1008 (leEncode 8 12) ++ putBytesAt 1016 (leEncode 8 3000) ++
  putBytesAt 3056 (leEncode 8 4000) ++ putBytesAt 3064 (leEncode 8 200) ++
  putBytesAt 2000 ((List.range 12).map (fun i => 65 + i)) ++
  putBytesAt 4000 (List.range 200))

/-- A target memory where the method data pointer `5000` is unmapped (the
read of the method bytes faults) while the path is readable. -/
def wMem5 : Mem := mkMem (
  putBytesAt 24 (leEncode 8 1000) ++ putBytesAt 1000 (leEncode 8 5000) ++
  putBytesAt 1008 (leEncode 8 4) ++ putBytesAt 1016 (leEncode 8 3000) ++
  putBytesAt 3056 (leEncode 8 4000) ++ putBytesAt 3064 (leEncode 8 5) ++
  putBytesAt 4000 (ascii "/ping"))

/-- A target memory with mixed field lengths, as in scenario 6 of the spec:
the method is the short 3-byte `GET` while the path has declared length 200,
exceeding the path capacity 128. -/
def wMix : Mem := mkMem (
  putBytesAt 24 (leEncode 8 1000) ++ putBytesAt 1000 (leEncode 8 2000) ++
  putBytesAt 1008 (leEncode 8 3) ++ putBytesAt 1016 (leEncode 8 3000) ++
  putBytesAt 3056 (leEncode 8 4000) ++ putBytesAt 3064 (leEncode 8 200) ++
  putBytesAt 2000 (ascii "GET") ++ putBytesAt 4000 (List.range 200))

/-- A well-formed sample record with short fields. -/
def eGood : event :=
  ⟨3, 5, ascii "GET" ++ List.replicate 7 0, ascii "/ping" ++ List.replicate 123 0⟩

/-- The bytes the producer emits for `eGood`. -/
def goodBuf : List Nat := cSerialize eGood

/-- A sample record used to measure the emitted wire size. -/
def e4 : event := ⟨3, 5, List.replicate 10 65, List.replicate 128 66⟩

/-- A full-size (154-byte) Raw Event Buffer whose stored method length 11
exceeds the method capacity 10, as the capture routine produces for any
method string longer than 10 bytes. -/
def badBuf : List Nat :=
  leEncode 8 11 ++ leEncode 8 5 ++ List.replicate 10 65 ++ List.replicate 128 66

/-! ## Claim C9 -/

/-- Claim C9: the Layout Descriptor is hard-coded: the request pointer is read
from `SP + 3*8 = SP + 24`; the method (pointer, length) pair from byte offsets
0 and 8 off the request; the URL pointer from byte offset 16 off the request;
the path (pointer, length) pair from byte offsets 56 and 64 off the URL; each
capture then copies `min(length, capacity)` bytes per field.  Every capture
uses exactly these fixed constants. -/
theorem C9_hardcoded_offsets (m : Mem) (sp : Nat) :
    handler m sp =
      { MethodLen := readWord m ((readWord m ((sp + 24) % 2 ^ 64) + 8) % 2 ^ 64)
        PathLen := readWord m
          ((readWord m ((readWord m ((sp + 24) % 2 ^ 64) + 16) % 2 ^ 64) + 64) % 2 ^ 64)
        Method := padZeros 10 (probeReadZ m
          (readWord m ((readWord m ((sp + 24) % 2 ^ 64) + 0) % 2 ^ 64))
          (min (readWord m ((readWord m ((sp + 24) % 2 ^ 64) + 8) % 2 ^ 64)) 10))
        Path := padZeros 128 (probeReadZ m
          (readWord m ((readWord m ((readWord m ((sp + 24) % 2 ^ 64) + 16) % 2 ^ 64)
            + 56) % 2 ^ 64))
          (min (readWord m ((readWord m ((readWord m ((sp + 24) % 2 ^ 64) + 16) % 2 ^ 64)
            + 64) % 2 ^ 64)) 128)) } := rfl

/-! ## Claim C4 -/

/-- Claim C4 counterexample: the emitted record is not free of padding beyond
what the two capacities imply.  `sizeof(struct event)` rounds `8+8+10+128 =
154` up to the 8-byte struct alignment, so `perf_submit` emits 160 bytes —
6 trailing padding bytes beyond the 154 the field widths imply, which is also
the exact size the consumer decodes. -/
theorem C4_layout_cex :
    (cSerialize e4).length = 160 ∧ goEventSize = 154 ∧
    (cSerialize e4).length ≠ goEventSize := by decide

/-- Claim C4 (amended): producer and consumer layouts agree on all fields —
both place the two 64-bit lengths at byte offsets 0 and 8, the 10-byte method
slot at 16 and the 128-byte path slot at 26, in the producer host byte order,
with no padding between fields; however the producer record carries 6
trailing alignment-padding bytes (`sizeof` 160) that the consumer never
reads, decoding exactly the first 154 bytes.  Decoding an emitted record
recovers every well-formed event exactly, and every captured event is
well-formed. -/
theorem C4_layout_agreement :
    methodLenOff = 0 ∧ pathLenOff = 8 ∧ methodOff = 16 ∧ pathOff = 26 ∧
    eventSizeC = 160 ∧ goEventSize = 154 ∧
    (∀ e : event, WFevent e → binRead (cSerialize e) = some e) ∧
    (∀ (m : Mem) (sp : Nat), WFevent (handler m sp)) :=
  ⟨by decide, by decide, by decide, by decide, by decide, by decide,
   fun _ he => binRead_cSerialize he, handler_wf⟩

/-- Witness for C4 (amended), at the concrete record `e4`. -/
theorem C4_layout_agreement_witness :
    WFevent e4 ∧ binRead (cSerialize e4) = some e4 :=
  ⟨by decide, C4_layout_agreement.2.2.2.2.2.2.1 e4 (by decide)⟩

/-! ## Claim C1 -/

/-- Claim C1 counterexample: the Event Decoder does not compute an effective
length `min(L, capacity)`, and decoding can fail.  On the valid 154-byte
buffer `badBuf`, whose stored method length 11 exceeds the capacity 10,
`binary.Read` succeeds but the slice `e.Method[:e.MethodLen]` panics
(`none`) instead of clamping. -/
theorem C1_decode_clamps_cex :
    badBuf.length = goEventSize ∧ (binRead badBuf).isSome = true ∧
    (binRead badBuf).bind decodeStrings = none := by decide

/-- Claim C1 (amended): the consumer slices each data array by the stored
length L with no clamping, so for every received buffer whose stored lengths
are within the capacities (10 for method, 128 for path) decoding succeeds,
reads only the first `L ≤ capacity` bytes of each data array, and — decoding
being a pure function of the buffer — re-decoding yields identical Decoded
Events; when a stored length exceeds its capacity the slice panics instead of
clamping. -/
theorem C1_decode_bounded {data : List Nat} {e : event}
    (hbr : binRead data = some e)
    (hm : e.MethodLen ≤ METHOD_CAP) (hp : e.PathLen ≤ PATH_CAP) :
    decodeStrings e = some (e.Method.take e.MethodLen, e.Path.take e.PathLen) ∧
    (e.Method.take e.MethodLen).length ≤ METHOD_CAP ∧
    (e.Path.take e.PathLen).length ≤ PATH_CAP := by
  unfold binRead at hbr
  by_cases h : goEventSize ≤ data.length
  · rw [if_pos h] at hbr
    have he := (Option.some.inj hbr).symm
    subst he
    have hlen : 154 ≤ data.length := by
      have : goEventSize = 154 := by decide
      omega
    have hml : ((data.drop 16).take METHOD_CAP).length = METHOD_CAP := by
      simp only [List.length_take, List.length_drop, METHOD_CAP]
      omega
    have hpl : ((data.drop 26).take PATH_CAP).length = PATH_CAP := by
      simp only [List.length_take, List.length_drop, PATH_CAP]
      omega
    refine ⟨?_, ?_, ?_⟩
    · simp only [decodeStrings, sliceStr, event.Method, event.Path,
        event.MethodLen, event.PathLen]
      rw [if_pos (by rw [hml]; exact hm), if_pos (by rw [hpl]; exact hp)]
      rfl
    · simp only [event.Method, event.MethodLen, List.length_take]
      exact le_trans (min_le_left _ _) hm
    · simp only [event.Path, event.PathLen, List.length_take]
      exact le_trans (min_le_left _ _) hp
  · rw [if_neg h] at hbr
    exact absurd hbr (by simp)

/-- Witness for C1 (amended), at the buffer emitted for the record `eGood`
(`GET` / `/ping`). -/
theorem C1_decode_bounded_witness :
    binRead goodBuf = some eGood ∧ eGood.MethodLen ≤ METHOD_CAP ∧
    eGood.PathLen ≤ PATH_CAP ∧
    decodeStrings eGood =
      some (eGood.Method.take eGood.MethodLen, eGood.Path.take eGood.PathLen) :=
  ⟨by decide, by decide, by decide,
   (@C1_decode_bounded goodBuf eGood (by decide) (by decide) (by decide)).1⟩

/-! ## Claim C2 -/

/-- Claim C2: for every captured field, independently of the other field,
when its declared length L exceeds its capacity C (10 for method, 128 for
path) the capture routine copies exactly `min(L, C) = C` bytes from the data
pointer into the fixed slot and stores the original L (not C) in the length
field; and the stored lengths always still read unchanged at the Raw Event
Buffer layer (after serialisation and `binary.Read`). -/
theorem C2_truncating_capture (m : Mem) (sp : Nat) :
    (∀ bm : List Nat, METHOD_CAP < methodLenOf m sp →
      probeRead m (methodDataOf m sp) METHOD_CAP = some bm →
      (handler m sp).Method = bm ∧ (handler m sp).MethodLen = methodLenOf m sp) ∧
    (∀ bp : List Nat, PATH_CAP < pathLenOf m sp →
      probeRead m (pathDataOf m sp) PATH_CAP = some bp →
      (handler m sp).Path = bp ∧ (handler m sp).PathLen = pathLenOf m sp) ∧
    (binRead (cSerialize (handler m sp))).map (fun e => (e.MethodLen, e.PathLen)) =
      some (methodLenOf m sp, pathLenOf m sp) := by
  refine ⟨?_, ?_, ?_⟩
  · intro bm hm hbm
    refine ⟨?_, rfl⟩
    show padZeros METHOD_CAP
      (probeReadZ m (methodDataOf m sp) (min (methodLenOf m sp) METHOD_CAP)) = bm
    rw [min_eq_right (le_of_lt hm), probeReadZ_of_some hbm]
    exact padZeros_eq_of_length (probeRead_length hbm)
  · intro bp hp hbp
    refine ⟨?_, rfl⟩
    show padZeros PATH_CAP
      (probeReadZ m (pathDataOf m sp) (min (pathLenOf m sp) PATH_CAP)) = bp
    rw [min_eq_right (le_of_lt hp), probeReadZ_of_some hbp]
    exact padZeros_eq_of_length (probeRead_length hbp)
  · rw [binRead_cSerialize (handler_wf m sp)]
    rfl

/-- Witness for C2: at `wMix` (scenario 6 of the spec — short 3-byte method,
path declared length 200) exactly the 128-byte path prefix is copied and the
stored path length stays 200; at `wMem2` (12-byte method) exactly 10 method
bytes are copied and the stored method length stays 12. -/
theorem C2_truncating_capture_witness :
    methodLenOf wMix 0 = 3 ∧ pathLenOf wMix 0 = 200 ∧
    (handler wMix 0).Path = List.range 128 ∧
    (handler wMix 0).PathLen = 200 ∧
    methodLenOf wMem2 0 = 12 ∧
    (handler wMem2 0).Method = (List.range 10).map (fun i => 65 + i) ∧
    (handler wMem2 0).MethodLen = 12 := by
  have hpath := (C2_truncating_capture wMix 0).2.1 (List.range 128)
    (by decide) (by decide)
  have hmeth := (C2_truncating_capture wMem2 0).1
    ((List.range 10).map (fun i => 65 + i)) (by decide) (by decide)
  refine ⟨by decide, by decide, hpath.1, ?_, by decide, hmeth.1, ?_⟩
  · rw [hpath.2]; decide
  · rw [hmeth.2]; decide

/-! ## Claim C3 -/

/-- Claim C3 counterexample: the per-field round trip fails in a mixed event.
At `wMix` the method `GET` has true length 3 ≤ 10 and is captured intact in
the Raw Event Buffer, but the companion path has declared length 200 > 128,
so the consumer slice `e.Path[:e.PathLen]` panics and the decode produces
nothing: the short method is not reproduced either. -/
theorem C3_roundtrip_cex :
    methodLenOf wMix 0 = 3 ∧ methodLenOf wMix 0 ≤ METHOD_CAP ∧
    probeRead wMix (methodDataOf wMix 0) (methodLenOf wMix 0) = some (ascii "GET") ∧
    (handler wMix 0).Method = ascii "GET" ++ List.replicate 7 0 ∧
    (binRead (cSerialize (handler wMix 0))).bind decodeStrings = none := by decide

/-- Claim C3 (amended): capture followed by decoding reproduces the exact
original byte sequence of a field with true length within its capacity only
when the other field of the same event is also within its capacity —
decoding is all-or-nothing, and a companion field whose stored length exceeds
its capacity makes the decode panic, reproducing nothing.  For events whose
method length is ≤ 10 and path length is ≤ 128, the round trip is the
identity on both fields. -/
theorem C3_roundtrip_short (m : Mem) (sp : Nat) (bm bp : List Nat)
    (hm : methodLenOf m sp ≤ METHOD_CAP)
    (hp : pathLenOf m sp ≤ PATH_CAP)
    (hbm : probeRead m (methodDataOf m sp) (methodLenOf m sp) = some bm)
    (hbp : probeRead m (pathDataOf m sp) (pathLenOf m sp) = some bp) :
    (binRead (cSerialize (handler m sp))).bind decodeStrings = some (bm, bp) := by
  rw [binRead_cSerialize (handler_wf m sp)]
  show decodeStrings (handler m sp) = some (bm, bp)
  have hbml : bm.length = methodLenOf m sp := probeRead_length hbm
  have hbpl : bp.length = pathLenOf m sp := probeRead_length hbp
  have hMethod : (handler m sp).Method = bm ++ List.replicate (METHOD_CAP - bm.length) 0 := by
    show padZeros METHOD_CAP
      (probeReadZ m (methodDataOf m sp) (min (methodLenOf m sp) METHOD_CAP)) = _
    rw [min_eq_left hm, probeReadZ_of_some hbm]
    rfl
  have hPath : (handler m sp).Path = bp ++ List.replicate (PATH_CAP - bp.length) 0 := by
    show padZeros PATH_CAP
      (probeReadZ m (pathDataOf m sp) (min (pathLenOf m sp) PATH_CAP)) = _
    rw [min_eq_left hp, probeReadZ_of_some hbp]
    rfl
  have hc1 : (handler m sp).MethodLen ≤ (handler m sp).Method.length := by
    rw [(handler_wf m sp).2.2.1]
    exact hm
  have hc2 : (handler m sp).PathLen ≤ (handler m sp).Path.length := by
    rw [(handler_wf m sp).2.2.2]
    exact hp
  have hs1 : sliceStr (handler m sp).Method (handler m sp).MethodLen = some bm := by
    unfold sliceStr
    rw [if_pos hc1, hMethod]
    show some ((bm ++ List.replicate (METHOD_CAP - bm.length) 0).take (methodLenOf m sp)) = _
    rw [← hbml, List.take_left' rfl]
  have hs2 : sliceStr (handler m sp).Path (handler m sp).PathLen = some bp := by
    unfold sliceStr
    rw [if_pos hc2, hPath]
    show some ((bp ++ List.replicate (PATH_CAP - bp.length) 0).take (pathLenOf m sp)) = _
    rw [← hbpl, List.take_left' rfl]
  simp [decodeStrings, hs1, hs2]

/-- Witness for C3 (amended), at the concrete memory `wMem3`: capturing and
decoding the 3-byte `GET` and the 5-byte `/ping` reproduces them exactly. -/
theorem C3_roundtrip_short_witness :
    methodLenOf wMem3 0 = 3 ∧ pathLenOf wMem3 0 = 5 ∧
    (binRead (cSerialize (handler wMem3 0))).bind decodeStrings =
      some (ascii "GET", ascii "/ping") :=
  ⟨by decide, by decide,
   C3_roundtrip_short wMem3 0 (ascii "GET") (ascii "/ping")
     (by decide) (by decide) (by decide) (by decide)⟩

/-! ## Claim C5 -/

/-- Claim C5: a failed memory read for one field leaves that field zero-valued
in the zero-initialised Raw Event Buffer, does not abort the routine, does not
disturb the capture of the other fields, and the event is still emitted (the
final `perf_submit` is unconditional). -/
theorem C5_failed_read_isolated (m : Mem) (sp : Nat) :
    (probeRead m (methodDataOf m sp) (min (methodLenOf m sp) METHOD_CAP) = none →
      (handler m sp).Method = List.replicate METHOD_CAP 0 ∧
      (handler m sp).MethodLen = methodLenOf m sp ∧
      (handler m sp).PathLen = pathLenOf m sp ∧
      (handler m sp).Path =
        padZeros PATH_CAP (probeReadZ m (pathDataOf m sp)
          (min (pathLenOf m sp) PATH_CAP))) ∧
    (probeRead m (pathDataOf m sp) (min (pathLenOf m sp) PATH_CAP) = none →
      (handler m sp).Path = List.replicate PATH_CAP 0 ∧
      (handler m sp).MethodLen = methodLenOf m sp ∧
      (handler m sp).PathLen = pathLenOf m sp ∧
      (handler m sp).Method =
        padZeros METHOD_CAP (probeReadZ m (methodDataOf m sp)
          (min (methodLenOf m sp) METHOD_CAP))) ∧
    handlerEmit m sp = [handler m sp] := by
  have hpadrep : ∀ n cap : Nat, n ≤ cap →
      padZeros cap (List.replicate n 0) = List.replicate cap 0 := by
    intro n cap h
    rw [padZeros, List.length_replicate, ← List.replicate_add]
    congr 1
    omega
  refine ⟨?_, ?_, rfl⟩
  · intro hfail
    refine ⟨?_, rfl, rfl, rfl⟩
    show padZeros METHOD_CAP
      (probeReadZ m (methodDataOf m sp) (min (methodLenOf m sp) METHOD_CAP)) = _
    rw [probeReadZ_of_none hfail]
    exact hpadrep _ _ (min_le_right _ _)
  · intro hfail
    refine ⟨?_, rfl, rfl, rfl⟩
    show padZeros PATH_CAP
      (probeReadZ m (pathDataOf m sp) (min (pathLenOf m sp) PATH_CAP)) = _
    rw [probeReadZ_of_none hfail]
    exact hpadrep _ _ (min_le_right _ _)

/-- Witness for C5, at the concrete memory `wMem5`: the method data pointer
is unmapped, the method slot stays all-zero, the path `/ping` is still
captured and the event is emitted. -/
theorem C5_failed_read_isolated_witness :
    probeRead wMem5 (methodDataOf wMem5 0) (min (methodLenOf wMem5 0) METHOD_CAP) = none ∧
    (handler wMem5 0).Method = List.replicate METHOD_CAP 0 ∧
    (handler wMem5 0).PathLen = 5 ∧
    (handler wMem5 0).Path = ascii "/ping" ++ List.replicate 123 0 ∧
    handlerEmit wMem5 0 = [handler wMem5 0] := by
  have hf : probeRead wMem5 (methodDataOf wMem5 0)
      (min (methodLenOf wMem5 0) METHOD_CAP) = none := by decide
  obtain ⟨h1, _, h3⟩ := C5_failed_read_isolated wMem5 0
  obtain ⟨hm2, _, hpl, hpath⟩ := h1 hf
  refine ⟨hf, hm2, ?_, ?_, h3⟩
  · rw [hpl]; decide
  · rw [hpath]; decide

/-! ## Claim C6 -/

/-- Claim C6: the output is the header line `Method     Path` followed by one
line per decoded event — the method left-justified in a 10-character column,
one space, the path, a newline; in particular the decoded event
`(GET, /ping)` prints as `GET        /ping`. -/
theorem C6_output_format :
    formatLine (ascii "Method") (ascii "Path") = ascii "Method     Path\n" ∧
    (∀ packets, programOutput packets =
      OutLine.line (ascii "Method     Path\n") :: consumeLoop packets) ∧
    (∀ (d : List Nat) (rest : List (List Nat)) (e : event) (mth pth : List Nat),
      binRead d = some e → decodeStrings e = some (mth, pth) →
      consumeLoop (d :: rest) =
        OutLine.line (padColumn mth ++ [32] ++ pth ++ [10]) :: consumeLoop rest) ∧
    formatLine (ascii "GET") (ascii "/ping") = ascii "GET        /ping\n" := by
  have hh : formatLine (ascii "Method") (ascii "Path") = ascii "Method     Path\n" := by
    decide
  refine ⟨hh, ?_, ?_, by decide⟩
  · intro packets
    show OutLine.line (formatLine (ascii "Method") (ascii "Path")) ::
      consumeLoop packets = _
    rw [hh]
  · intro d rest e mth pth h1 h2
    simp [consumeLoop, h1, h2, formatLine]

/-- Witness for C6, at the emitted buffer for `eGood`: the consumer prints
exactly the line `GET        /ping`. -/
theorem C6_output_format_witness :
    binRead goodBuf = some eGood ∧
    decodeStrings eGood = some (ascii "GET", ascii "/ping") ∧
    consumeLoop [goodBuf] = [OutLine.line (ascii "GET        /ping\n")] := by
  have h := C6_output_format.2.2.1 goodBuf [] eGood (ascii "GET") (ascii "/ping")
    (by decide) (by decide)
  refine ⟨by decide, by decide, ?_⟩
  rw [h]
  decide

/-! ## Claim C7 -/

/-- Claim C7: if any of the three setup steps fails (loading the BPF program,
attaching the uprobe, initialising the perf map), the process exits non-zero
via `log.Fatalf` before capture starts; when setup succeeds, the process
blocks until an interrupt/kill signal and then exits with code 0. -/
theorem C7_setup_and_shutdown (load attach initMap : Except String Unit) :
    ((∃ msg, load = Except.error msg) ∨ (∃ msg, attach = Except.error msg) ∨
        (∃ msg, initMap = Except.error msg) →
      exitCode (mainRun load attach initMap).1 ≠ 0 ∧
      (mainRun load attach initMap).2 = false) ∧
    (load = Except.ok () → attach = Except.ok () → initMap = Except.ok () →
      exitCode (mainRun load attach initMap).1 = 0 ∧
      (mainRun load attach initMap).2 = true) := by
  constructor
  · intro h
    rcases load with e | u
    · simp [mainRun, exitCode]
    · rcases attach with e | u2
      · simp [mainRun, exitCode]
      · rcases initMap with e | u3
        · simp [mainRun, exitCode]
        · rcases h with ⟨msg, hmsg⟩ | ⟨msg, hmsg⟩ | ⟨msg, hmsg⟩ <;> simp at hmsg
  · intro h1 h2 h3
    subst h1; subst h2; subst h3
    simp [mainRun, exitCode]

/-- Witness for C7: a failed attach exits non-zero before capture begins, and
an all-good setup followed by the signal exits with code 0. -/
theorem C7_setup_and_shutdown_witness :
    exitCode (mainRun (Except.ok ()) (Except.error "no symbol") (Except.ok ())).1 ≠ 0 ∧
    (mainRun (Except.ok ()) (Except.error "no symbol") (Except.ok ())).2 = false ∧
    exitCode (mainRun (Except.ok ()) (Except.ok ()) (Except.ok ())).1 = 0 :=
  ⟨((C7_setup_and_shutdown _ _ _).1 (Or.inr (Or.inl ⟨"no symbol", rfl⟩))).1,
   ((C7_setup_and_shutdown _ _ _).1 (Or.inr (Or.inl ⟨"no symbol", rfl⟩))).2,
   ((C7_setup_and_shutdown _ _ _).2 rfl rfl rfl).1⟩

/-! ## Claim C8 -/

theorem chanRun_sublist (acts : List Action) :
    ∀ (vs : List Nat) (c : Chan), (chanRun acts vs c).Sublist (c.buf ++ vs) := by
  induction acts with
  | nil => intro vs c; exact List.nil_sublist _
  | cons a acts ih =>
    intro vs c
    cases a with
    | produce =>
      cases vs with
      | nil => simpa using ih [] c
      | cons v vs =>
        show (chanRun acts vs (chanPush c v)).Sublist (c.buf ++ (v :: vs))
        by_cases hlt : c.buf.length < CHAN_CAP
        · have hc : chanPush c v = ⟨c.buf ++ [v]⟩ := by simp [chanPush, hlt]
          have heq : (c.buf ++ [v]) ++ vs = c.buf ++ (v :: vs) := by simp
          rw [hc]
          have h := ih vs ⟨c.buf ++ [v]⟩
          simpa [heq] using h
        · have hc : chanPush c v = c := by simp [chanPush, hlt]
          rw [hc]
          exact (ih vs c).trans
            (List.Sublist.append_left (List.sublist_cons_self v vs) c.buf)
    | consume =>
      obtain ⟨buf⟩ := c
      cases buf with
      | nil => simpa using ih vs ⟨[]⟩
      | cons x xs =>
        show (x :: chanRun acts vs ⟨xs⟩).Sublist ((x :: xs) ++ vs)
        exact List.Sublist.cons₂ x (ih vs ⟨xs⟩)

/-- Claim C8: whatever the interleaving of producer emissions and consumer
receives, the consumer observes a subsequence of the N emitted buffers in
their original emission order — no duplicates, no reordering, length at most
N; a full channel drops the new buffer but never corrupts the order.
(Emitted buffers are represented by their emission indices `0, ..., N-1`.) -/
theorem C8_channel_subsequence (acts : List Action) (n : Nat) :
    (chanRun acts (List.range n) ⟨[]⟩).Sublist (List.range n) ∧
    (chanRun acts (List.range n) ⟨[]⟩).Pairwise (· < ·) ∧
    (chanRun acts (List.range n) ⟨[]⟩).Nodup ∧
    (chanRun acts (List.range n) ⟨[]⟩).length ≤ n := by
  have h : (chanRun acts (List.range n) ⟨[]⟩).Sublist (List.range n) := by
    simpa using chanRun_sublist acts (List.range n) ⟨[]⟩
  refine ⟨h, List.Pairwise.sublist h (List.pairwise_lt_range n), h.nodup (List.nodup_range n), ?_⟩
  simpa using h.length_le

/-! ## Claim C10 -/

/-- Claim C10: a dequeued channel entry shorter than the 154-byte record makes
`binary.Read` fail; the consumer prints the `failed to decode packet`
diagnostic, prints no event line for that entry, and continues with the next
entry. -/
theorem C10_short_packet_skipped (d : List Nat) (rest : List (List Nat))
    (h : d.length < goEventSize) :
    binRead d = none ∧
    consumeLoop (d :: rest) = OutLine.diag :: consumeLoop rest := by
  have hb : binRead d = none := by
    unfold binRead
    rw [if_neg (fun hc => Nat.lt_irrefl _ (Nat.lt_of_lt_of_le h hc))]
  exact ⟨hb, by simp [consumeLoop, hb]⟩

/-- Witness for C10, at the concrete 3-byte packet `[0, 1, 2]`. -/
theorem C10_short_packet_skipped_witness :
    ([0, 1, 2] : List Nat).length < goEventSize ∧
    binRead [0, 1, 2] = none ∧
    consumeLoop [[0, 1, 2]] = [OutLine.diag] := by
  have h := C10_short_packet_skipped [0, 1, 2] [] (by decide)
  exact ⟨by decide, h.1, by rw [h.2]; decide⟩

end GoHttpSnoop
